import Mathlib

/-!
Stim `bit_ref` (src/simd/bit_ref.h)

A shallow embedding of the single-bit proxy `bit_ref` and of its operators.

* Memory is a byte buffer, a list of `uint8_t` cells; a `uint8_t *` is the index of a cell.
* Every member function is written in state-passing style: it takes the memory and the
  receiver and returns the memory after the call together with its C++ result (the
  reference `*this` for the assignment operators, the boolean for `operator bool`).
* The operands of `<<`, `>>`, `~`, `&`, `|`, `^` are promoted to `int` by C++.  An `int` is
  represented by its 32-bit two's-complement bit pattern, a natural number below `2 ^ 32`;
  storing into a `uint8_t` keeps the low 8 bits.
-/

namespace Stim

/-- The type `uint8_t`: the integers `0 .. 255`. -/
abbrev uint8_t := Fin 256

/-- A byte buffer; the address of a byte is its position in the list. -/
abbrev Buffer := List uint8_t

/-- Number of bits of the C++ type `int`. -/
def INT_BITS : Nat := 32

/-- Integral promotion of a `uint8_t` to `int`. -/
def promote (x : uint8_t) : Nat := x.val

/-- Conversion of an `int` back to `uint8_t` (reduction modulo `2 ^ 8`), as performed by
the compound assignments `*byte &= ..`, `*byte |= ..`, `*byte ^= ..`. -/
def to_uint8 (x : Nat) : uint8_t := ⟨x % 256, Nat.mod_lt x (by decide)⟩

/-- The conversion `(uint8_t)value` of a `bool`, promoted to `int`: `0` or `1`. -/
def of_bool (value : Bool) : Nat := if value then 1 else 0

/-- The conversion of an `int` to `bool`: true exactly when the integer is not zero. -/
def int_to_bool (x : Nat) : Bool := x != 0

/-- The operator `x << n` on `int`. -/
def int_shl (x n : Nat) : Nat := (x <<< n) % 2 ^ INT_BITS

/-- The operator `x >> n` on a non-negative `int`. -/
def int_shr (x n : Nat) : Nat := x >>> n

/-- The operator `~x` on `int`: the bit pattern of `-1 - x`. -/
def int_not (x : Nat) : Nat := 2 ^ INT_BITS - 1 - x

/-- The operator `x & y` on `int`. -/
def int_and (x y : Nat) : Nat := x &&& y

/-- The operator `x | y` on `int`. -/
def int_or (x y : Nat) : Nat := x ||| y

/-- The operator `x ^ y` on `int`. -/
def int_xor (x y : Nat) : Nat := x ^^^ y

/-- The read `*p`.  Reading outside the buffer is undefined behaviour in C++; the model
returns `0` there and every statement below assumes the address is inside the buffer. -/
def load (buf : Buffer) (p : Nat) : uint8_t := buf.getD p 0

/-- The write `*p = x`.  Writing outside the buffer is undefined behaviour in C++; the model
leaves the buffer alone there and every statement below assumes the address is inside. -/
def store (buf : Buffer) (p : Nat) (x : uint8_t) : Buffer := buf.set p x

/-- The struct `bit_ref`: `uint8_t *byte; uint8_t bit_index;`. -/
structure bit_ref where
  /-- The member `uint8_t *byte`: the address of the referenced byte. -/
  byte : Nat
  /-- The member `uint8_t bit_index`. -/
  bit_index : Nat
  deriving DecidableEq

/-- Modelled from the spec: the constructor `bit_ref(void *base, size_t offset)` is only
declared in the header; its body is not part of the sources.  Following the specification,
`byte_offset = linear_offset / 8`, `sub_bit = linear_offset % 8`, the byte pointer is
`base_pointer + byte_offset` and `bit_index = sub_bit`. -/
def bit_ref.ctor (base offset : Nat) : bit_ref :=
  { byte := base + offset / 8, bit_index := offset % 8 }

/-- A reference is valid for a buffer when its byte lies inside the buffer and its
`bit_index` is canonical. -/
def bit_ref.valid (buf : Buffer) (r : bit_ref) : Prop :=
  r.byte < buf.length ∧ r.bit_index < 8

instance (buf : Buffer) (r : bit_ref) : Decidable (r.valid buf) := by
  unfold bit_ref.valid; infer_instance

/-- The member `operator bool() const`:
`return (*byte >> bit_index) & 1;`. -/
def bit_ref.op_bool (buf : Buffer) (self : bit_ref) : Buffer × Bool :=
  (buf, int_to_bool (int_and (int_shr (promote (load buf self.byte)) self.bit_index) 1))

/-- The member `operator=(bool value)`:
`*byte &= ~((uint8_t)1 << bit_index); *byte |= (uint8_t)value << bit_index; return *this;`. -/
def bit_ref.assign_bool (buf : Buffer) (self : bit_ref) (value : Bool) : Buffer × bit_ref :=
  let buf1 := store buf self.byte
    (to_uint8 (int_and (promote (load buf self.byte)) (int_not (int_shl 1 self.bit_index))))
  let buf2 := store buf1 self.byte
    (to_uint8 (int_or (promote (load buf1 self.byte)) (int_shl (of_bool value) self.bit_index)))
  (buf2, self)

/-- The member `operator=(const bit_ref &value)`:
`*this = (bool)value; return *this;`. -/
def bit_ref.assign_ref (buf : Buffer) (self value : bit_ref) : Buffer × bit_ref :=
  let rd := bit_ref.op_bool buf value
  let wr := bit_ref.assign_bool rd.1 self rd.2
  (wr.1, wr.2)

/-- The member `operator^=(bool value)`:
`*byte ^= (uint8_t)value << bit_index; return *this;`. -/
def bit_ref.xor_assign (buf : Buffer) (self : bit_ref) (value : Bool) : Buffer × bit_ref :=
  (store buf self.byte
    (to_uint8 (int_xor (promote (load buf self.byte)) (int_shl (of_bool value) self.bit_index))),
   self)

/-- The member `operator&=(bool value)`:
`*byte &= (uint8_t)value << bit_index; return *this;`. -/
def bit_ref.and_assign (buf : Buffer) (self : bit_ref) (value : Bool) : Buffer × bit_ref :=
  (store buf self.byte
    (to_uint8 (int_and (promote (load buf self.byte)) (int_shl (of_bool value) self.bit_index))),
   self)

/-- The member `operator|=(bool value)`:
`*byte |= (uint8_t)value << bit_index; return *this;`. -/
def bit_ref.or_assign (buf : Buffer) (self : bit_ref) (value : Bool) : Buffer × bit_ref :=
  (store buf self.byte
    (to_uint8 (int_or (promote (load buf self.byte)) (int_shl (of_bool value) self.bit_index))),
   self)

/-- The member `void swap_with(bit_ref other)`:
`bool b = (bool)other; other = (bool)*this; *this = b;`.
The result is the memory after the call, the receiver and the by-value parameter `other`
as they are when the function returns. -/
def bit_ref.swap_with (buf : Buffer) (self other : bit_ref) : Buffer × bit_ref × bit_ref :=
  let b := bit_ref.op_bool buf other
  let t := bit_ref.op_bool b.1 self
  let w1 := bit_ref.assign_bool t.1 other t.2
  let w2 := bit_ref.assign_bool w1.1 self b.2
  (w2.1, w2.2, w1.2)

/-- The value read through a reference: the boolean result of `operator bool`. -/
def bit_ref.read (buf : Buffer) (r : bit_ref) : Bool := (bit_ref.op_bool buf r).2

/-! Memory and bit-level lemmas -/

theorem load_store_same (buf : Buffer) (p : Nat) (x : uint8_t) (h : p < buf.length) :
    load (store buf p x) p = x := by
  simp [load, store, List.getD_eq_getElem?_getD, List.getElem?_set, h]

theorem load_store_other (buf : Buffer) (p q : Nat) (x : uint8_t) (h : p ≠ q) :
    load (store buf p x) q = load buf q := by
  simp [load, store, List.getD_eq_getElem?_getD, List.getElem?_set, h]

theorem store_store (buf : Buffer) (p : Nat) (x y : uint8_t) :
    store (store buf p x) p y = store buf p y := by
  simp [store, List.set_set]

theorem store_load (buf : Buffer) (p : Nat) : store buf p (load buf p) = buf := by
  apply List.ext_getElem?
  intro n
  by_cases hp : p < buf.length
  · by_cases hn : p = n
    · subst hn
      simp [load, store, List.getD_eq_getElem?_getD, List.getElem?_set, hp]
    · simp [store, List.getElem?_set, hn]
  · simp [store, List.set_eq_of_length_le (Nat.le_of_not_lt hp)]

theorem length_store (buf : Buffer) (p : Nat) (x : uint8_t) :
    (store buf p x).length = buf.length := by
  simp [store]

theorem uint8_ext (x y : uint8_t) (h : ∀ j, x.val.testBit j = y.val.testBit j) : x = y :=
  Fin.ext (Nat.eq_of_testBit_eq h)

theorem uint8_testBit_high (x : uint8_t) (j : Nat) (h : 8 ≤ j) : x.val.testBit j = false := by
  apply Nat.testBit_lt_two_pow
  calc x.val < 2 ^ 8 := x.isLt
    _ ≤ 2 ^ j := Nat.pow_le_pow_right (by decide) h

theorem testBit_to_uint8 (x j : Nat) :
    (to_uint8 x).val.testBit j = (decide (j < 8) && x.testBit j) := by
  show (x % 2 ^ 8).testBit j = _
  exact Nat.testBit_mod_two_pow x 8 j

theorem int_shl_of_bool (v : Bool) (i : Nat) (h : i < 8) :
    int_shl (of_bool v) i = if v then 2 ^ i else 0 := by
  have hlt : 2 ^ i < 2 ^ 32 := Nat.pow_lt_pow_right (by decide) (by omega)
  cases v
  · simp [int_shl, of_bool]
  · simp only [int_shl, of_bool, INT_BITS, Nat.one_shiftLeft, if_true]
    exact Nat.mod_eq_of_lt hlt

theorem int_shl_one (i : Nat) (h : i < 8) : int_shl 1 i = 2 ^ i :=
  int_shl_of_bool true i h

theorem testBit_int_not_two_pow (i j : Nat) (h : i < 8) :
    (int_not (2 ^ i)).testBit j = (decide (j < 32) && !decide (i = j)) := by
  have hlt : 2 ^ i < 2 ^ 32 := Nat.pow_lt_pow_right (by decide) (by omega)
  have e : int_not (2 ^ i) = 2 ^ 32 - (2 ^ i + 1) := by
    simp only [int_not, INT_BITS]; omega
  rw [e, Nat.testBit_two_pow_sub_succ hlt, Nat.testBit_two_pow]


theorem testBit_assign_byte (x : uint8_t) (i j : Nat) (v : Bool) (h : i < 8) :
    (to_uint8 (int_or (promote (to_uint8 (int_and (promote x) (int_not (int_shl 1 i)))))
      (int_shl (of_bool v) i))).val.testBit j = if j = i then v else x.val.testBit j := by
  rw [int_shl_one i h, int_shl_of_bool v i h]
  simp only [testBit_to_uint8, int_or, int_and, promote, Nat.testBit_or, Nat.testBit_and,
    testBit_int_not_two_pow i j h]
  by_cases hj : j < 8
  · by_cases hji : j = i
    · subst hji
      cases v <;> simp [hj]
    · have hij : ¬ i = j := fun e => hji e.symm
      have hj32 : j < 32 := by omega
      cases v <;> simp [hj, hji, hij, hj32, Nat.testBit_two_pow]
  · have hji : ¬ j = i := by omega
    simp [hj, hji, uint8_testBit_high x j (by omega)]

theorem testBit_xor_byte (x : uint8_t) (i j : Nat) (v : Bool) (h : i < 8) :
    (to_uint8 (int_xor (promote x) (int_shl (of_bool v) i))).val.testBit j =
      if j = i then xor (x.val.testBit j) v else x.val.testBit j := by
  rw [int_shl_of_bool v i h]
  simp only [testBit_to_uint8, int_xor, promote, Nat.testBit_xor]
  by_cases hj : j < 8
  · by_cases hji : j = i
    · subst hji
      cases v <;> simp [hj]
    · have hij : ¬ i = j := fun e => hji e.symm
      cases v <;> simp [hj, hji, hij, Nat.testBit_two_pow]
  · have hji : ¬ j = i := by omega
    simp [hj, hji, uint8_testBit_high x j (by omega)]

theorem testBit_and_byte (x : uint8_t) (i j : Nat) (v : Bool) (h : i < 8) :
    (to_uint8 (int_and (promote x) (int_shl (of_bool v) i))).val.testBit j =
      if j = i then (x.val.testBit j && v) else false := by
  rw [int_shl_of_bool v i h]
  simp only [testBit_to_uint8, int_and, promote, Nat.testBit_and]
  by_cases hj : j < 8
  · by_cases hji : j = i
    · subst hji
      cases v <;> simp [hj]
    · have hij : ¬ i = j := fun e => hji e.symm
      cases v <;> simp [hj, hji, hij, Nat.testBit_two_pow]
  · have hji : ¬ j = i := by omega
    simp [hj, hji]

theorem testBit_or_byte (x : uint8_t) (i j : Nat) (v : Bool) (h : i < 8) :
    (to_uint8 (int_or (promote x) (int_shl (of_bool v) i))).val.testBit j =
      if j = i then (x.val.testBit j || v) else x.val.testBit j := by
  rw [int_shl_of_bool v i h]
  simp only [testBit_to_uint8, int_or, promote, Nat.testBit_or]
  by_cases hj : j < 8
  · by_cases hji : j = i
    · subst hji
      cases v <;> simp [hj]
    · have hij : ¬ i = j := fun e => hji e.symm
      cases v <;> simp [hj, hji, hij, Nat.testBit_two_pow]
  · have hji : ¬ j = i := by omega
    simp [hj, hji, uint8_testBit_high x j (by omega)]

theorem int_to_bool_bit (x i : Nat) :
    int_to_bool (int_and (int_shr x i) 1) = x.testBit i := by
  simp only [int_to_bool, int_and, int_shr, Nat.testBit]
  rw [Nat.land_comm]


theorem read_eq_testBit (buf : Buffer) (r : bit_ref) :
    r.read buf = (load buf r.byte).val.testBit r.bit_index := by
  simp only [bit_ref.read, bit_ref.op_bool, promote, int_to_bool_bit]

theorem bit_ref_ne_cases (q r : bit_ref) (h : q ≠ r) :
    q.byte ≠ r.byte ∨ (q.byte = r.byte ∧ q.bit_index ≠ r.bit_index) := by
  by_cases hb : q.byte = r.byte
  · right
    refine ⟨hb, fun hi => h ?_⟩
    cases q; cases r; simp_all
  · left; exact hb

/-! Boolean assignment -/

theorem length_assign_bool (buf : Buffer) (r : bit_ref) (v : Bool) :
    (r.assign_bool buf v).1.length = buf.length := by
  simp [bit_ref.assign_bool, length_store]

theorem load_assign_bool_other (buf : Buffer) (r : bit_ref) (v : Bool) (M : Nat)
    (h : M ≠ r.byte) : load (r.assign_bool buf v).1 M = load buf M := by
  simp only [bit_ref.assign_bool]
  rw [load_store_other _ _ _ _ (Ne.symm h), load_store_other _ _ _ _ (Ne.symm h)]

theorem testBit_assign_bool_same (buf : Buffer) (r : bit_ref) (v : Bool) (j : Nat)
    (h : r.valid buf) :
    (load (r.assign_bool buf v).1 r.byte).val.testBit j =
      if j = r.bit_index then v else (load buf r.byte).val.testBit j := by
  simp only [bit_ref.assign_bool]
  rw [load_store_same _ _ _ (by rw [length_store]; exact h.1), load_store_same _ _ _ h.1]
  exact testBit_assign_byte _ _ _ _ h.2

/-- Reading any reference `q` after the boolean assignment `r = v`. -/
theorem read_assign_bool (buf : Buffer) (r q : bit_ref) (v : Bool) (h : r.valid buf) :
    q.read (r.assign_bool buf v).1 = if q = r then v else q.read buf := by
  by_cases hq : q = r
  · subst hq
    rw [read_eq_testBit, testBit_assign_bool_same buf q v _ h]
    simp
  · rw [if_neg hq, read_eq_testBit, read_eq_testBit]
    rcases bit_ref_ne_cases q r hq with hb | ⟨hb, hi⟩
    · rw [load_assign_bool_other buf r v q.byte hb]
    · rw [hb, testBit_assign_bool_same buf r v _ h, if_neg hi]

theorem valid_of_length_eq (buf buf' : Buffer) (r : bit_ref) (hl : buf'.length = buf.length)
    (h : r.valid buf) : r.valid buf' :=
  ⟨by rw [hl]; exact h.1, h.2⟩

/-- Two buffers of the same length in which every reference reads the same are equal. -/
theorem buffer_ext_read (buf buf' : Buffer) (hl : buf'.length = buf.length)
    (h : ∀ q : bit_ref, q.read buf' = q.read buf) : buf' = buf := by
  apply List.ext_getElem?
  intro n
  by_cases hn : n < buf.length
  · have hn' : n < buf'.length := by rw [hl]; exact hn
    have e : load buf' n = load buf n := by
      apply uint8_ext
      intro j
      have := h ⟨n, j⟩
      simpa [read_eq_testBit] using this
    simp only [load, List.getD_eq_getElem?_getD, List.getElem?_eq_getElem hn,
      List.getElem?_eq_getElem hn', Option.getD_some] at e
    rw [List.getElem?_eq_getElem hn, List.getElem?_eq_getElem hn', e]
  · have hn' : ¬ n < buf'.length := by rw [hl]; exact hn
    rw [List.getElem?_eq_none (Nat.le_of_not_lt hn), List.getElem?_eq_none (Nat.le_of_not_lt hn')]

/-! Compound assignments -/

/-- Reading any reference `q` after `r ^= v`. -/
theorem read_xor_assign (buf : Buffer) (r q : bit_ref) (v : Bool) (h : r.valid buf) :
    q.read (r.xor_assign buf v).1 = if q = r then xor (r.read buf) v else q.read buf := by
  simp only [read_eq_testBit, bit_ref.xor_assign]
  by_cases hq : q = r
  · subst hq
    rw [load_store_same _ _ _ h.1, testBit_xor_byte _ _ _ _ h.2]
    simp
  · rw [if_neg hq]
    rcases bit_ref_ne_cases q r hq with hb | ⟨hb, hi⟩
    · rw [load_store_other _ _ _ _ (Ne.symm hb)]
    · rw [hb, load_store_same _ _ _ h.1, testBit_xor_byte _ _ _ _ h.2, if_neg hi]

theorem length_xor_assign (buf : Buffer) (r : bit_ref) (v : Bool) :
    (r.xor_assign buf v).1.length = buf.length := by
  simp [bit_ref.xor_assign, length_store]

/-- Reading any reference `q` after `r &= v`: the referenced bit is ANDed with `v`, every
other bit of the referenced byte reads `false`, the other bytes are untouched. -/
theorem read_and_assign (buf : Buffer) (r q : bit_ref) (v : Bool) (h : r.valid buf) :
    q.read (r.and_assign buf v).1 =
      if q = r then (r.read buf && v) else if q.byte = r.byte then false else q.read buf := by
  simp only [read_eq_testBit, bit_ref.and_assign]
  by_cases hq : q = r
  · subst hq
    rw [load_store_same _ _ _ h.1, testBit_and_byte _ _ _ _ h.2]
    simp
  · rw [if_neg hq]
    rcases bit_ref_ne_cases q r hq with hb | ⟨hb, hi⟩
    · rw [load_store_other _ _ _ _ (Ne.symm hb), if_neg hb]
    · rw [if_pos hb, hb, load_store_same _ _ _ h.1, testBit_and_byte _ _ _ _ h.2, if_neg hi]

/-! Swap -/

theorem swap_with_fst (buf : Buffer) (a b : bit_ref) :
    (a.swap_with buf b).1 = (a.assign_bool (b.assign_bool buf (a.read buf)).1 (b.read buf)).1 :=
  rfl

theorem length_swap_with (buf : Buffer) (a b : bit_ref) :
    (a.swap_with buf b).1.length = buf.length := by
  rw [swap_with_fst, length_assign_bool, length_assign_bool]

/-- Reading any reference `q` after `a.swap_with(b)`. -/
theorem read_swap_with (buf : Buffer) (a b q : bit_ref) (ha : a.valid buf) (hb : b.valid buf) :
    q.read (a.swap_with buf b).1 =
      if q = a then b.read buf else if q = b then a.read buf else q.read buf := by
  rw [swap_with_fst,
    read_assign_bool _ a q _ (valid_of_length_eq buf _ a (length_assign_bool buf b _) ha),
    read_assign_bool buf b q _ hb]

/-! Claims -/

/-- C1: read/write round-trip.  For every buffer, every valid reference `r` and every
boolean `v`, the boolean conversion of `r` after the assignment `r = v` is exactly `v`. -/
theorem assign_bool_read_roundtrip (buf : Buffer) (r : bit_ref) (v : Bool)
    (h : r.valid buf) : (r.op_bool (r.assign_bool buf v).1).2 = v := by
  have e := read_assign_bool buf r r v h
  simpa [bit_ref.read] using e

theorem assign_bool_read_roundtrip_witness :
    (bit_ref.mk 1 2).valid [165, 90] ∧
      ((bit_ref.mk 1 2).op_bool
        ((bit_ref.mk 1 2).assign_bool [165, 90] true).1).2 = true :=
  ⟨by decide, assign_bool_read_roundtrip [165, 90] (bit_ref.mk 1 2) true (by decide)⟩

/-- C2: byte isolation of the boolean assignment.  For every buffer, every valid reference
`r` to bit `i` of byte `N` and every boolean `v`, after `r = v` every bit `j ≠ i` of byte `N`
and every bit of every byte `M ≠ N` reads as it did before. -/
theorem assign_bool_byte_isolation (buf : Buffer) (r : bit_ref) (v : Bool)
    (h : r.valid buf) :
    (∀ j, j ≠ r.bit_index →
        (bit_ref.mk r.byte j).read (r.assign_bool buf v).1 = (bit_ref.mk r.byte j).read buf) ∧
    (∀ M j, M ≠ r.byte →
        (bit_ref.mk M j).read (r.assign_bool buf v).1 = (bit_ref.mk M j).read buf) := by
  constructor
  · intro j hj
    rw [read_assign_bool buf r _ v h, if_neg]
    intro e
    exact hj (congrArg bit_ref.bit_index e)
  · intro M j hM
    rw [read_assign_bool buf r _ v h, if_neg]
    intro e
    exact hM (congrArg bit_ref.byte e)

theorem assign_bool_byte_isolation_witness :
    (bit_ref.mk 1 2).valid [165, 90] ∧
    (∀ j, j ≠ (bit_ref.mk 1 2).bit_index →
        (bit_ref.mk (bit_ref.mk 1 2).byte j).read
            ((bit_ref.mk 1 2).assign_bool [165, 90] true).1 =
          (bit_ref.mk (bit_ref.mk 1 2).byte j).read [165, 90]) ∧
    (∀ M j, M ≠ (bit_ref.mk 1 2).byte →
        (bit_ref.mk M j).read ((bit_ref.mk 1 2).assign_bool [165, 90] true).1 =
          (bit_ref.mk M j).read [165, 90]) :=
  ⟨by decide, assign_bool_byte_isolation [165, 90] (bit_ref.mk 1 2) true (by decide)⟩

/-- C3 (evaluation of the code): `r &= value` does not respect byte isolation.  On the byte
`0b00000011` the code `r &= true` through bit 0 yields `0b00000001`, so bit 1 of the same
byte, which read `true`, reads `false`; on the byte `0b11111111` the code `r &= false` through
bit 2 yields `0b00000000`. -/
theorem and_assign_clears_other_bits :
    ((bit_ref.mk 0 0).and_assign [0b00000011] true).1 = [0b00000001] ∧
    (bit_ref.mk 0 1).read [0b00000011] = true ∧
    (bit_ref.mk 0 1).read ((bit_ref.mk 0 0).and_assign [0b00000011] true).1 = false ∧
    ((bit_ref.mk 0 2).and_assign [0b11111111] false).1 = [0b00000000] := by
  decide

/-- C4: the AND-assignment ANDs the referenced bit with the value.  For every buffer, every
valid reference `r` and every boolean `value`, reading `r` after `r &= value` returns the old
value of `r` AND `value`; in particular it returns `false` whenever `value` is `false`. -/
theorem and_assign_read (buf : Buffer) (r : bit_ref) (value : Bool) (h : r.valid buf) :
    (r.op_bool (r.and_assign buf value).1).2 = ((r.op_bool buf).2 && value) ∧
    (value = false → (r.op_bool (r.and_assign buf value).1).2 = false) := by
  have e : (r.op_bool (r.and_assign buf value).1).2 = ((r.op_bool buf).2 && value) := by
    have := read_and_assign buf r r value h
    simpa [bit_ref.read] using this
  refine ⟨e, fun hv => ?_⟩
  rw [e, hv, Bool.and_false]

theorem and_assign_read_witness :
    (bit_ref.mk 1 5).valid [165, 255] ∧
    ((bit_ref.mk 1 5).op_bool ((bit_ref.mk 1 5).and_assign [165, 255] false).1).2 =
        (((bit_ref.mk 1 5).op_bool [165, 255]).2 && false) ∧
    (false = false →
      ((bit_ref.mk 1 5).op_bool ((bit_ref.mk 1 5).and_assign [165, 255] false).1).2 =
        false) :=
  ⟨by decide, and_assign_read [165, 255] (bit_ref.mk 1 5) false (by decide)⟩

/-- C5: swap correctness.  For every buffer and every two valid references `a` and `b` that
address different bits (of one byte or of two bytes), after `a.swap_with(b)` the reference `a`
reads the old value of `b`, `b` reads the old value of `a`, every other bit reads as before and
the buffer has the same length. -/
theorem swap_with_exchanges (buf : Buffer) (a b : bit_ref) (ha : a.valid buf)
    (hb : b.valid buf) (hab : a ≠ b) :
    a.read (a.swap_with buf b).1 = b.read buf ∧
    b.read (a.swap_with buf b).1 = a.read buf ∧
    (∀ q : bit_ref, q ≠ a → q ≠ b → q.read (a.swap_with buf b).1 = q.read buf) ∧
    (a.swap_with buf b).1.length = buf.length := by
  refine ⟨?_, ?_, ?_, length_swap_with buf a b⟩
  · rw [read_swap_with buf a b a ha hb, if_pos rfl]
  · rw [read_swap_with buf a b b ha hb, if_neg (Ne.symm hab), if_pos rfl]
  · intro q hqa hqb
    rw [read_swap_with buf a b q ha hb, if_neg hqa, if_neg hqb]

theorem swap_with_exchanges_witness :
    (bit_ref.mk 0 1).valid [2, 0] ∧ (bit_ref.mk 1 4).valid [2, 0] ∧
    bit_ref.mk 0 1 ≠ bit_ref.mk 1 4 ∧
    ((bit_ref.mk 0 1).read ((bit_ref.mk 0 1).swap_with [2, 0] (bit_ref.mk 1 4)).1 =
        (bit_ref.mk 1 4).read [2, 0] ∧
      (bit_ref.mk 1 4).read ((bit_ref.mk 0 1).swap_with [2, 0] (bit_ref.mk 1 4)).1 =
        (bit_ref.mk 0 1).read [2, 0] ∧
      (∀ q : bit_ref, q ≠ bit_ref.mk 0 1 → q ≠ bit_ref.mk 1 4 →
        q.read ((bit_ref.mk 0 1).swap_with [2, 0] (bit_ref.mk 1 4)).1 = q.read [2, 0]) ∧
      ((bit_ref.mk 0 1).swap_with [2, 0] (bit_ref.mk 1 4)).1.length =
        ([2, 0] : Buffer).length) :=
  ⟨by decide, by decide, by decide,
    swap_with_exchanges [2, 0] (bit_ref.mk 0 1) (bit_ref.mk 1 4)
      (by decide) (by decide) (by decide)⟩

/-- C6: swap under self-aliasing is the identity.  For every buffer and every valid
reference `a`, when `b` addresses the same bit as `a`, `a.swap_with(b)` leaves the whole
buffer as it was, and so the bit reads its original value. -/
theorem swap_with_self (buf : Buffer) (a b : bit_ref) (ha : a.valid buf) (hab : b = a) :
    (a.swap_with buf b).1 = buf ∧ a.read (a.swap_with buf b).1 = a.read buf := by
  subst hab
  have e : (b.swap_with buf b).1 = buf := by
    apply buffer_ext_read _ _ (length_swap_with buf b b)
    intro q
    rw [read_swap_with buf b b q ha ha]
    by_cases hq : q = b
    · rw [if_pos hq, hq]
    · rw [if_neg hq, if_neg hq]
  exact ⟨e, by rw [e]⟩

theorem swap_with_self_witness :
    (bit_ref.mk 0 6).valid [91] ∧ bit_ref.mk 0 6 = bit_ref.mk 0 6 ∧
    (((bit_ref.mk 0 6).swap_with [91] (bit_ref.mk 0 6)).1 = [91] ∧
      (bit_ref.mk 0 6).read ((bit_ref.mk 0 6).swap_with [91] (bit_ref.mk 0 6)).1 =
        (bit_ref.mk 0 6).read [91]) :=
  ⟨by decide, rfl, swap_with_self [91] (bit_ref.mk 0 6) (bit_ref.mk 0 6) (by decide) rfl⟩

/-- C7 (as stated): the scenario of the specification does not end in `0b00100100`.  From
the single byte `0b00000000`, `r3 = true` gives `0b00001000` and `r5 ^= true` gives
`0b00101000`, but `r3.swap_with(r5)` does not give `0b00100100`. -/
theorem scenario_as_stated_fails :
    ¬ (((bit_ref.ctor 0 3).assign_bool [0b00000000] true).1 = [0b00001000] ∧
       ((bit_ref.ctor 0 5).xor_assign
          ((bit_ref.ctor 0 3).assign_bool [0b00000000] true).1 true).1 = [0b00101000] ∧
       ((bit_ref.ctor 0 3).swap_with
          ((bit_ref.ctor 0 5).xor_assign
            ((bit_ref.ctor 0 3).assign_bool [0b00000000] true).1 true).1
          (bit_ref.ctor 0 5)).1 = [0b00100100]) := by
  decide

/-- C7 (amended): from the single byte `0b00000000`, with `r3` and `r5` built for offsets 3
and 5, `r3 = true` makes the byte `0b00001000`, then `r5 ^= true` makes it `0b00101000`, then
`r3.swap_with(r5)` leaves it `0b00101000`: bits 3 and 5 both hold 1 before the swap. -/
theorem scenario_amended :
    ((bit_ref.ctor 0 3).assign_bool [0b00000000] true).1 = [0b00001000] ∧
    ((bit_ref.ctor 0 5).xor_assign
        ((bit_ref.ctor 0 3).assign_bool [0b00000000] true).1 true).1 = [0b00101000] ∧
    ((bit_ref.ctor 0 3).swap_with
        ((bit_ref.ctor 0 5).xor_assign
          ((bit_ref.ctor 0 3).assign_bool [0b00000000] true).1 true).1
        (bit_ref.ctor 0 5)).1 = [0b00101000] ∧
    (bit_ref.ctor 0 3).read [0b00101000] = true ∧
    (bit_ref.ctor 0 5).read [0b00101000] = true := by
  decide

/-- C8: canonicalization.  For every base address and every linear bit offset `L`, the
constructed reference has byte pointer `base + L / 8` and `bit_index = L % 8`, which is below
8; it is the reference constructed from `(base + L / 8, L % 8)` and so reads the same bit in
every buffer.  The offsets 0, 7, 8, 9, 15, 16 and 1000 are spelled out. -/
theorem ctor_canonical (base L : Nat) :
    (bit_ref.ctor base L).byte = base + L / 8 ∧
    (bit_ref.ctor base L).bit_index = L % 8 ∧
    (bit_ref.ctor base L).bit_index < 8 ∧
    bit_ref.ctor (base + L / 8) (L % 8) = bit_ref.ctor base L ∧
    (∀ buf : Buffer,
      (bit_ref.ctor base L).op_bool buf = (bit_ref.ctor (base + L / 8) (L % 8)).op_bool buf) ∧
    bit_ref.ctor base 0 = ⟨base, 0⟩ ∧ bit_ref.ctor base 7 = ⟨base, 7⟩ ∧
    bit_ref.ctor base 8 = ⟨base + 1, 0⟩ ∧ bit_ref.ctor base 9 = ⟨base + 1, 1⟩ ∧
    bit_ref.ctor base 15 = ⟨base + 1, 7⟩ ∧ bit_ref.ctor base 16 = ⟨base + 2, 0⟩ ∧
    bit_ref.ctor base 1000 = ⟨base + 125, 0⟩ := by
  have hlt : L % 8 < 8 := Nat.mod_lt L (by decide)
  have hidem : bit_ref.ctor (base + L / 8) (L % 8) = bit_ref.ctor base L := by
    simp only [bit_ref.ctor, Nat.mod_mod, Nat.div_eq_of_lt hlt, Nat.add_zero]
  refine ⟨rfl, rfl, hlt, hidem, fun buf => by rw [hidem], ?_, ?_, ?_, ?_, ?_, ?_, ?_⟩ <;>
    simp [bit_ref.ctor]

/-- C9: the read is the bit test and is pure.  For every buffer and every valid reference,
the boolean conversion returns `true` exactly when `(byte_value >> bit_index) & 1` is 1, that
is when the binary digit of weight `2 ^ bit_index` of the byte is 1 (bit 0 is the
least-significant bit), and the buffer it returns is the buffer it was given. -/
theorem op_bool_bit_test (buf : Buffer) (r : bit_ref) (h : r.valid buf) :
    ((r.op_bool buf).2 = true ↔ ((buf.get ⟨r.byte, h.1⟩).val >>> r.bit_index) &&& 1 = 1) ∧
    ((r.op_bool buf).2 = true ↔ (buf.get ⟨r.byte, h.1⟩).val / 2 ^ r.bit_index % 2 = 1) ∧
    (r.op_bool buf).1 = buf := by
  have hl : load buf r.byte = buf.get ⟨r.byte, h.1⟩ := by
    simp [load, List.getD_eq_getElem?_getD, List.getElem?_eq_getElem h.1]
  have e : (r.op_bool buf).2 = (buf.get ⟨r.byte, h.1⟩).val.testBit r.bit_index := by
    have := read_eq_testBit buf r
    rw [hl] at this
    simpa [bit_ref.read] using this
  refine ⟨?_, ?_, rfl⟩
  · rw [e, Nat.testBit_to_div_mod, Nat.and_one_is_mod, Nat.shiftRight_eq_div_pow]
    simp
  · rw [e, Nat.testBit_to_div_mod]
    simp

theorem op_bool_bit_test_witness :
    ∃ h : (bit_ref.mk 1 5).valid [0, 0b00100000],
      (((bit_ref.mk 1 5).op_bool [0, 0b00100000]).2 = true ↔
        ((([0, 0b00100000] : Buffer).get ⟨(bit_ref.mk 1 5).byte, h.1⟩).val >>>
          (bit_ref.mk 1 5).bit_index) &&& 1 = 1) ∧
      (((bit_ref.mk 1 5).op_bool [0, 0b00100000]).2 = true ↔
        (([0, 0b00100000] : Buffer).get ⟨(bit_ref.mk 1 5).byte, h.1⟩).val /
          2 ^ (bit_ref.mk 1 5).bit_index % 2 = 1) ∧
      ((bit_ref.mk 1 5).op_bool [0, 0b00100000]).1 = [0, 0b00100000] :=
  ⟨by decide, op_bool_bit_test [0, 0b00100000] (bit_ref.mk 1 5) (by decide)⟩

/-- C10: XOR-assignment postcondition.  For every buffer, every valid reference `r` and
every boolean `value`, reading `r` after `r ^= value` returns the old value of `r` XOR
`value`, every other bit reads as before and the length is kept; `r ^= true` flips the bit
and `r ^= false` leaves the buffer unchanged. -/
theorem xor_assign_post (buf : Buffer) (r : bit_ref) (value : Bool) (h : r.valid buf) :
    r.read (r.xor_assign buf value).1 = xor (r.read buf) value ∧
    (∀ q : bit_ref, q ≠ r → q.read (r.xor_assign buf value).1 = q.read buf) ∧
    (r.xor_assign buf value).1.length = buf.length ∧
    r.read (r.xor_assign buf true).1 = !r.read buf ∧
    (r.xor_assign buf false).1 = buf := by
  refine ⟨?_, ?_, length_xor_assign buf r value, ?_, ?_⟩
  · rw [read_xor_assign buf r r value h, if_pos rfl]
  · intro q hq
    rw [read_xor_assign buf r q value h, if_neg hq]
  · rw [read_xor_assign buf r r true h, if_pos rfl, Bool.xor_true]
  · apply buffer_ext_read _ _ (length_xor_assign buf r false)
    intro q
    rw [read_xor_assign buf r q false h]
    by_cases hq : q = r
    · rw [if_pos hq, hq, Bool.xor_false]
    · rw [if_neg hq]

theorem xor_assign_post_witness :
    (bit_ref.mk 1 3).valid [7, 9] ∧
    ((bit_ref.mk 1 3).read ((bit_ref.mk 1 3).xor_assign [7, 9] true).1 =
        xor ((bit_ref.mk 1 3).read [7, 9]) true ∧
      (∀ q : bit_ref, q ≠ bit_ref.mk 1 3 →
        q.read ((bit_ref.mk 1 3).xor_assign [7, 9] true).1 = q.read [7, 9]) ∧
      ((bit_ref.mk 1 3).xor_assign [7, 9] true).1.length = ([7, 9] : Buffer).length ∧
      (bit_ref.mk 1 3).read ((bit_ref.mk 1 3).xor_assign [7, 9] true).1 =
        !(bit_ref.mk 1 3).read [7, 9] ∧
      ((bit_ref.mk 1 3).xor_assign [7, 9] false).1 = [7, 9]) :=
  ⟨by decide, xor_assign_post [7, 9] (bit_ref.mk 1 3) true (by decide)⟩

/-! Further lemmas on the compound assignments and on the proxy assignment -/

/-- Reading any reference `q` after `r |= v`. -/
theorem read_or_assign (buf : Buffer) (r q : bit_ref) (v : Bool) (h : r.valid buf) :
    q.read (r.or_assign buf v).1 = if q = r then (r.read buf || v) else q.read buf := by
  simp only [read_eq_testBit, bit_ref.or_assign]
  by_cases hq : q = r
  · subst hq
    rw [load_store_same _ _ _ h.1, testBit_or_byte _ _ _ _ h.2]
    simp
  · rw [if_neg hq]
    rcases bit_ref_ne_cases q r hq with hb | ⟨hb, hi⟩
    · rw [load_store_other _ _ _ _ (Ne.symm hb)]
    · rw [hb, load_store_same _ _ _ h.1, testBit_or_byte _ _ _ _ h.2, if_neg hi]

theorem length_or_assign (buf : Buffer) (r : bit_ref) (v : Bool) :
    (r.or_assign buf v).1.length = buf.length := by
  simp [bit_ref.or_assign, length_store]

theorem length_and_assign (buf : Buffer) (r : bit_ref) (v : Bool) :
    (r.and_assign buf v).1.length = buf.length := by
  simp [bit_ref.and_assign, length_store]

theorem assign_ref_fst (buf : Buffer) (r1 r2 : bit_ref) :
    (r1.assign_ref buf r2).1 = (r1.assign_bool buf (r2.read buf)).1 :=
  rfl

/-- Writing to a bit the value it already holds leaves the buffer as it is. -/
theorem assign_bool_read_self (buf : Buffer) (r : bit_ref) (h : r.valid buf) :
    (r.assign_bool buf (r.read buf)).1 = buf := by
  apply buffer_ext_read _ _ (length_assign_bool buf r _)
  intro q
  rw [read_assign_bool buf r q _ h]
  by_cases hq : q = r
  · rw [if_pos hq, hq]
  · rw [if_neg hq]

theorem valid_iff_of_length_eq (buf buf' : Buffer) (r : bit_ref)
    (hl : buf'.length = buf.length) : r.valid buf' ↔ r.valid buf := by
  unfold bit_ref.valid
  rw [hl]

/-! Claims, continued -/

/-- C11: the toggle is an involution.  For every buffer and every valid reference `r`,
applying `r ^= true` twice restores the original buffer, and hence the original value of
`r`. -/
theorem xor_assign_true_twice (buf : Buffer) (r : bit_ref) (h : r.valid buf) :
    (r.xor_assign (r.xor_assign buf true).1 true).1 = buf ∧
    r.read (r.xor_assign (r.xor_assign buf true).1 true).1 = r.read buf := by
  have h1 : r.valid (r.xor_assign buf true).1 :=
    valid_of_length_eq buf _ r (length_xor_assign buf r true) h
  have e : (r.xor_assign (r.xor_assign buf true).1 true).1 = buf := by
    apply buffer_ext_read
    · rw [length_xor_assign, length_xor_assign]
    · intro q
      rw [read_xor_assign _ r q true h1, read_xor_assign buf r q true h,
        read_xor_assign buf r r true h, if_pos rfl]
      by_cases hq : q = r
      · rw [if_pos hq, hq]
        cases r.read buf <;> rfl
      · rw [if_neg hq, if_neg hq]
  exact ⟨e, by rw [e]⟩

theorem xor_assign_true_twice_witness :
    (bit_ref.mk 1 6).valid [200, 77] ∧
    (((bit_ref.mk 1 6).xor_assign ((bit_ref.mk 1 6).xor_assign [200, 77] true).1 true).1 =
        [200, 77] ∧
      (bit_ref.mk 1 6).read
          ((bit_ref.mk 1 6).xor_assign ((bit_ref.mk 1 6).xor_assign [200, 77] true).1 true).1 =
        (bit_ref.mk 1 6).read [200, 77]) :=
  ⟨by decide, xor_assign_true_twice [200, 77] (bit_ref.mk 1 6) (by decide)⟩

/-- C12: OR-assignment postcondition.  For every buffer, every valid reference `r` and every
boolean `value`, reading `r` after `r |= value` returns the old value of `r` OR `value`, every
other bit reads as before and the length is kept; `r |= true` sets the bit and `r |= false`
leaves the buffer unchanged. -/
theorem or_assign_post (buf : Buffer) (r : bit_ref) (value : Bool) (h : r.valid buf) :
    r.read (r.or_assign buf value).1 = (r.read buf || value) ∧
    (∀ q : bit_ref, q ≠ r → q.read (r.or_assign buf value).1 = q.read buf) ∧
    (r.or_assign buf value).1.length = buf.length ∧
    r.read (r.or_assign buf true).1 = true ∧
    (r.or_assign buf false).1 = buf := by
  refine ⟨?_, ?_, length_or_assign buf r value, ?_, ?_⟩
  · rw [read_or_assign buf r r value h, if_pos rfl]
  · intro q hq
    rw [read_or_assign buf r q value h, if_neg hq]
  · rw [read_or_assign buf r r true h, if_pos rfl, Bool.or_true]
  · apply buffer_ext_read _ _ (length_or_assign buf r false)
    intro q
    rw [read_or_assign buf r q false h]
    by_cases hq : q = r
    · rw [if_pos hq, hq, Bool.or_false]
    · rw [if_neg hq]

theorem or_assign_post_witness :
    (bit_ref.mk 0 4).valid [3, 9] ∧
    ((bit_ref.mk 0 4).read ((bit_ref.mk 0 4).or_assign [3, 9] true).1 =
        ((bit_ref.mk 0 4).read [3, 9] || true) ∧
      (∀ q : bit_ref, q ≠ bit_ref.mk 0 4 →
        q.read ((bit_ref.mk 0 4).or_assign [3, 9] true).1 = q.read [3, 9]) ∧
      ((bit_ref.mk 0 4).or_assign [3, 9] true).1.length = ([3, 9] : Buffer).length ∧
      (bit_ref.mk 0 4).read ((bit_ref.mk 0 4).or_assign [3, 9] true).1 = true ∧
      ((bit_ref.mk 0 4).or_assign [3, 9] false).1 = [3, 9]) :=
  ⟨by decide, or_assign_post [3, 9] (bit_ref.mk 0 4) true (by decide)⟩

/-- C13: idempotence of `|=` and `&=`.  For every buffer and every valid reference `r`, the
buffer after `r |= true` applied twice is the buffer after it is applied once, and the buffer
after `r &= false` applied twice is the buffer after it is applied once. -/
theorem or_true_and_false_idempotent (buf : Buffer) (r : bit_ref) (h : r.valid buf) :
    (r.or_assign (r.or_assign buf true).1 true).1 = (r.or_assign buf true).1 ∧
    (r.and_assign (r.and_assign buf false).1 false).1 = (r.and_assign buf false).1 := by
  have ho : r.valid (r.or_assign buf true).1 :=
    valid_of_length_eq buf _ r (length_or_assign buf r true) h
  have ha : r.valid (r.and_assign buf false).1 :=
    valid_of_length_eq buf _ r (length_and_assign buf r false) h
  constructor
  · apply buffer_ext_read _ _ (length_or_assign _ r true)
    intro q
    rw [read_or_assign _ r q true ho]
    by_cases hq : q = r
    · rw [if_pos hq, hq, read_or_assign buf r r true h, if_pos rfl]
      simp
    · rw [if_neg hq]
  · apply buffer_ext_read _ _ (length_and_assign _ r false)
    intro q
    rw [read_and_assign _ r q false ha, read_and_assign buf r q false h,
      read_and_assign buf r r false h, if_pos rfl]
    by_cases hq : q = r
    · rw [if_pos hq, if_pos hq]
      simp
    · rw [if_neg hq, if_neg hq]
      by_cases hb : q.byte = r.byte
      · rw [if_pos hb, if_pos hb]
      · rw [if_neg hb, if_neg hb]

theorem or_true_and_false_idempotent_witness :
    (bit_ref.mk 1 2).valid [51, 170] ∧
    (((bit_ref.mk 1 2).or_assign ((bit_ref.mk 1 2).or_assign [51, 170] true).1 true).1 =
        ((bit_ref.mk 1 2).or_assign [51, 170] true).1 ∧
      ((bit_ref.mk 1 2).and_assign ((bit_ref.mk 1 2).and_assign [51, 170] false).1 false).1 =
        ((bit_ref.mk 1 2).and_assign [51, 170] false).1) :=
  ⟨by decide, or_true_and_false_idempotent [51, 170] (bit_ref.mk 1 2) (by decide)⟩

/-- C14: the proxy-to-proxy assignment copies the value.  For every buffer and every two
valid references `r1`, `r2` (they may address the same bit), `r1 = r2` produces the buffer
obtained by reading `r2` as a boolean and boolean-assigning it to `r1`; afterwards `r1` reads
the value `r2` had before, `r2` reads what it read before, and when `r1` and `r2` address the
same bit the buffer is unchanged. -/
theorem assign_ref_copies_value (buf : Buffer) (r1 r2 : bit_ref) (h1 : r1.valid buf)
    (h2 : r2.valid buf) :
    (r1.assign_ref buf r2).1 = (r1.assign_bool (r2.op_bool buf).1 (r2.op_bool buf).2).1 ∧
    r1.read (r1.assign_ref buf r2).1 = r2.read buf ∧
    r2.read (r1.assign_ref buf r2).1 = r2.read buf ∧
    (r1 = r2 → (r1.assign_ref buf r2).1 = buf) := by
  refine ⟨rfl, ?_, ?_, ?_⟩
  · rw [assign_ref_fst, read_assign_bool buf r1 r1 _ h1, if_pos rfl]
  · rw [assign_ref_fst, read_assign_bool buf r1 r2 _ h1]
    by_cases hq : r2 = r1
    · rw [if_pos hq]
    · rw [if_neg hq]
  · intro e
    subst e
    rw [assign_ref_fst]
    exact assign_bool_read_self buf r1 h1

theorem assign_ref_copies_value_witness :
    (bit_ref.mk 0 3).valid [32, 1] ∧ (bit_ref.mk 0 5).valid [32, 1] ∧
    (((bit_ref.mk 0 3).assign_ref [32, 1] (bit_ref.mk 0 5)).1 =
        ((bit_ref.mk 0 3).assign_bool ((bit_ref.mk 0 5).op_bool [32, 1]).1
          ((bit_ref.mk 0 5).op_bool [32, 1]).2).1 ∧
      (bit_ref.mk 0 3).read ((bit_ref.mk 0 3).assign_ref [32, 1] (bit_ref.mk 0 5)).1 =
        (bit_ref.mk 0 5).read [32, 1] ∧
      (bit_ref.mk 0 5).read ((bit_ref.mk 0 3).assign_ref [32, 1] (bit_ref.mk 0 5)).1 =
        (bit_ref.mk 0 5).read [32, 1] ∧
      (bit_ref.mk 0 3 = bit_ref.mk 0 5 →
        ((bit_ref.mk 0 3).assign_ref [32, 1] (bit_ref.mk 0 5)).1 = [32, 1])) :=
  ⟨by decide, by decide,
    assign_ref_copies_value [32, 1] (bit_ref.mk 0 3) (bit_ref.mk 0 5) (by decide) (by decide)⟩

/-- C15: the proxy assignment does not rebind identity.  For every buffer and every two
valid references `r1`, `r2` addressing different bits (such as bit 3 and bit 5 of byte 0),
the reference returned by `r1 = r2` has the byte pointer and the `bit_index` of `r1`, it reads
the value `r2` had, and a later boolean write of any value through `r2` does not change the
value read through it. -/
theorem assign_ref_keeps_identity (buf : Buffer) (r1 r2 : bit_ref) (h1 : r1.valid buf)
    (h2 : r2.valid buf) (hne : r1 ≠ r2) :
    (r1.assign_ref buf r2).2.byte = r1.byte ∧
    (r1.assign_ref buf r2).2.bit_index = r1.bit_index ∧
    (r1.assign_ref buf r2).2.read (r1.assign_ref buf r2).1 = r2.read buf ∧
    (∀ w : Bool,
      (r1.assign_ref buf r2).2.read (r2.assign_bool (r1.assign_ref buf r2).1 w).1 =
        (r1.assign_ref buf r2).2.read (r1.assign_ref buf r2).1) := by
  have hs : (r1.assign_ref buf r2).2 = r1 := rfl
  have hv : r2.valid (r1.assign_ref buf r2).1 :=
    valid_of_length_eq buf _ r2 (by rw [assign_ref_fst, length_assign_bool]) h2
  refine ⟨rfl, rfl, ?_, ?_⟩
  · rw [hs, assign_ref_fst, read_assign_bool buf r1 r1 _ h1, if_pos rfl]
  · intro w
    rw [hs, read_assign_bool _ r2 r1 w hv, if_neg hne]

theorem assign_ref_keeps_identity_witness :
    (bit_ref.mk 0 3).valid [0b00100000] ∧ (bit_ref.mk 0 5).valid [0b00100000] ∧
    bit_ref.mk 0 3 ≠ bit_ref.mk 0 5 ∧
    (((bit_ref.mk 0 3).assign_ref [0b00100000] (bit_ref.mk 0 5)).2.byte =
        (bit_ref.mk 0 3).byte ∧
      ((bit_ref.mk 0 3).assign_ref [0b00100000] (bit_ref.mk 0 5)).2.bit_index =
        (bit_ref.mk 0 3).bit_index ∧
      ((bit_ref.mk 0 3).assign_ref [0b00100000] (bit_ref.mk 0 5)).2.read
          ((bit_ref.mk 0 3).assign_ref [0b00100000] (bit_ref.mk 0 5)).1 =
        (bit_ref.mk 0 5).read [0b00100000] ∧
      (∀ w : Bool,
        ((bit_ref.mk 0 3).assign_ref [0b00100000] (bit_ref.mk 0 5)).2.read
            ((bit_ref.mk 0 5).assign_bool
              ((bit_ref.mk 0 3).assign_ref [0b00100000] (bit_ref.mk 0 5)).1 w).1 =
          ((bit_ref.mk 0 3).assign_ref [0b00100000] (bit_ref.mk 0 5)).2.read
            ((bit_ref.mk 0 3).assign_ref [0b00100000] (bit_ref.mk 0 5)).1)) :=
  ⟨by decide, by decide, by decide,
    assign_ref_keeps_identity [0b00100000] (bit_ref.mk 0 3) (bit_ref.mk 0 5)
      (by decide) (by decide) (by decide)⟩

/-- C16: the AND-assignment with `false` clears the entire byte.  For every buffer and every
valid reference `r`, after `r &= false` the referenced byte is 0: the buffer is the original
one with the whole referenced byte set to zero, not only the targeted bit. -/
theorem and_assign_false_clears_byte (buf : Buffer) (r : bit_ref) (h : r.valid buf) :
    load (r.and_assign buf false).1 r.byte = 0 ∧
    (r.and_assign buf false).1 = buf.set r.byte 0 := by
  have e : to_uint8 (int_and (promote (load buf r.byte)) (int_shl (of_bool false) r.bit_index))
      = 0 := by
    apply uint8_ext
    intro j
    rw [testBit_and_byte _ _ _ _ h.2]
    simp
  have e2 : (r.and_assign buf false).1 = buf.set r.byte 0 := by
    simp only [bit_ref.and_assign, e, store]
  refine ⟨?_, e2⟩
  simp only [bit_ref.and_assign, e]
  exact load_store_same buf r.byte 0 h.1

theorem and_assign_false_clears_byte_witness :
    (bit_ref.mk 1 2).valid [255, 255, 255] ∧
    (load ((bit_ref.mk 1 2).and_assign [255, 255, 255] false).1 (bit_ref.mk 1 2).byte = 0 ∧
      ((bit_ref.mk 1 2).and_assign [255, 255, 255] false).1 =
        ([255, 255, 255] : Buffer).set (bit_ref.mk 1 2).byte 0) :=
  ⟨by decide, and_assign_false_clears_byte [255, 255, 255] (bit_ref.mk 1 2) (by decide)⟩

/-- C17: cross-byte isolation of every mutating operation.  For every buffer, every
reference `r` to byte `N` and every boolean `v`, each of `r = v`, `r ^= v`, `r &= v` and
`r |= v` leaves every byte `M ≠ N` as it was; for references `a` and `b`, `a.swap_with(b)`
leaves every byte `M` other than the two referenced bytes as it was. -/
theorem cross_byte_isolation (buf : Buffer) (r a b : bit_ref) (v : Bool) (M : Nat)
    (hM : M ≠ r.byte) (hMa : M ≠ a.byte) (hMb : M ≠ b.byte) :
    load (r.assign_bool buf v).1 M = load buf M ∧
    load (r.xor_assign buf v).1 M = load buf M ∧
    load (r.and_assign buf v).1 M = load buf M ∧
    load (r.or_assign buf v).1 M = load buf M ∧
    load (a.swap_with buf b).1 M = load buf M := by
  refine ⟨load_assign_bool_other buf r v M hM, ?_, ?_, ?_, ?_⟩
  · exact load_store_other _ _ _ _ (Ne.symm hM)
  · exact load_store_other _ _ _ _ (Ne.symm hM)
  · exact load_store_other _ _ _ _ (Ne.symm hM)
  · rw [swap_with_fst, load_assign_bool_other _ a _ M hMa, load_assign_bool_other _ b _ M hMb]

theorem cross_byte_isolation_witness :
    1 ≠ (bit_ref.mk 0 7).byte ∧ 1 ≠ (bit_ref.mk 0 1).byte ∧ 1 ≠ (bit_ref.mk 2 5).byte ∧
    (load ((bit_ref.mk 0 7).assign_bool [129, 66, 36] false).1 1 = load [129, 66, 36] 1 ∧
      load ((bit_ref.mk 0 7).xor_assign [129, 66, 36] false).1 1 = load [129, 66, 36] 1 ∧
      load ((bit_ref.mk 0 7).and_assign [129, 66, 36] false).1 1 = load [129, 66, 36] 1 ∧
      load ((bit_ref.mk 0 7).or_assign [129, 66, 36] false).1 1 = load [129, 66, 36] 1 ∧
      load ((bit_ref.mk 0 1).swap_with [129, 66, 36] (bit_ref.mk 2 5)).1 1 =
        load [129, 66, 36] 1) :=
  ⟨by decide, by decide, by decide,
    cross_byte_isolation [129, 66, 36] (bit_ref.mk 0 7) (bit_ref.mk 0 1) (bit_ref.mk 2 5)
      false 1 (by decide) (by decide) (by decide)⟩

/-- C18: reference identity is an invariant of every operation.  The boolean assignment, the
proxy assignment, `^=`, `&=` and `|=` each return the very reference they were applied to,
and `swap_with` leaves its receiver and its parameter as they were, whatever the buffer and
the values; so the `bit_index` of the reference after the operation is below 8 exactly when
it was before, and the reference is valid for the memory after the operation exactly when it
was valid before.  The boolean read is a `const` member: it yields the memory it was given
and a boolean, and has no receiver to hand back. -/
theorem reference_identity_invariant (buf : Buffer) (r r2 : bit_ref) (v : Bool) :
    (r.assign_bool buf v).2 = r ∧
    (r.assign_ref buf r2).2 = r ∧
    (r.xor_assign buf v).2 = r ∧
    (r.and_assign buf v).2 = r ∧
    (r.or_assign buf v).2 = r ∧
    (r.swap_with buf r2).2 = (r, r2) ∧
    (r.op_bool buf).1 = buf ∧
    ((r.assign_bool buf v).2.bit_index < 8 ↔ r.bit_index < 8) ∧
    ((r.assign_ref buf r2).2.bit_index < 8 ↔ r.bit_index < 8) ∧
    ((r.xor_assign buf v).2.bit_index < 8 ↔ r.bit_index < 8) ∧
    ((r.and_assign buf v).2.bit_index < 8 ↔ r.bit_index < 8) ∧
    ((r.or_assign buf v).2.bit_index < 8 ↔ r.bit_index < 8) ∧
    ((r.swap_with buf r2).2.1.bit_index < 8 ↔ r.bit_index < 8) ∧
    ((r.swap_with buf r2).2.2.bit_index < 8 ↔ r2.bit_index < 8) ∧
    ((r.assign_bool buf v).2.valid (r.assign_bool buf v).1 ↔ r.valid buf) ∧
    ((r.assign_ref buf r2).2.valid (r.assign_ref buf r2).1 ↔ r.valid buf) ∧
    ((r.xor_assign buf v).2.valid (r.xor_assign buf v).1 ↔ r.valid buf) ∧
    ((r.and_assign buf v).2.valid (r.and_assign buf v).1 ↔ r.valid buf) ∧
    ((r.or_assign buf v).2.valid (r.or_assign buf v).1 ↔ r.valid buf) ∧
    ((r.swap_with buf r2).2.1.valid (r.swap_with buf r2).1 ↔ r.valid buf) ∧
    ((r.swap_with buf r2).2.2.valid (r.swap_with buf r2).1 ↔ r2.valid buf) := by
  have href : (r.assign_ref buf r2).1.length = buf.length := by
    rw [assign_ref_fst, length_assign_bool]
  refine ⟨rfl, rfl, rfl, rfl, rfl, rfl, rfl, Iff.rfl, Iff.rfl, Iff.rfl, Iff.rfl, Iff.rfl,
    Iff.rfl, Iff.rfl, ?_, ?_, ?_, ?_, ?_, ?_, ?_⟩
  · exact valid_iff_of_length_eq buf _ r (length_assign_bool buf r v)
  · exact valid_iff_of_length_eq buf _ r href
  · exact valid_iff_of_length_eq buf _ r (length_xor_assign buf r v)
  · exact valid_iff_of_length_eq buf _ r (length_and_assign buf r v)
  · exact valid_iff_of_length_eq buf _ r (length_or_assign buf r v)
  · exact valid_iff_of_length_eq buf _ r (length_swap_with buf r r2)
  · exact valid_iff_of_length_eq buf _ r2 (length_swap_with buf r r2)

/-- C19: writes to different bits commute.  For every buffer, every two valid references
`a` and `b` addressing different bits (of one byte or of two bytes) and all booleans `u`, `v`,
performing `a = u` then `b = v` yields the buffer that `b = v` then `a = u` yields. -/
theorem assign_bool_commute (buf : Buffer) (a b : bit_ref) (u v : Bool) (ha : a.valid buf)
    (hb : b.valid buf) (hab : a ≠ b) :
    (b.assign_bool (a.assign_bool buf u).1 v).1 = (a.assign_bool (b.assign_bool buf v).1 u).1 := by
  have hb1 : b.valid (a.assign_bool buf u).1 :=
    valid_of_length_eq buf _ b (length_assign_bool buf a u) hb
  have ha1 : a.valid (b.assign_bool buf v).1 :=
    valid_of_length_eq buf _ a (length_assign_bool buf b v) ha
  apply buffer_ext_read
  · rw [length_assign_bool, length_assign_bool, length_assign_bool, length_assign_bool]
  · intro q
    rw [read_assign_bool _ b q v hb1, read_assign_bool buf a q u ha,
      read_assign_bool _ a q u ha1, read_assign_bool buf b q v hb]
    by_cases hqa : q = a
    · have hqb : q ≠ b := fun e => hab (hqa.symm.trans e)
      rw [if_neg hqb, if_pos hqa, if_pos hqa]
    · rw [if_neg hqa, if_neg hqa]

theorem assign_bool_commute_witness :
    (bit_ref.mk 0 2).valid [90, 15] ∧ (bit_ref.mk 0 6).valid [90, 15] ∧
    bit_ref.mk 0 2 ≠ bit_ref.mk 0 6 ∧
    ((bit_ref.mk 0 6).assign_bool ((bit_ref.mk 0 2).assign_bool [90, 15] true).1 false).1 =
      ((bit_ref.mk 0 2).assign_bool ((bit_ref.mk 0 6).assign_bool [90, 15] false).1 true).1 :=
  ⟨by decide, by decide, by decide,
    assign_bool_commute [90, 15] (bit_ref.mk 0 2) (bit_ref.mk 0 6) true false
      (by decide) (by decide) (by decide)⟩

/-- C20: swap is a symmetric involution.  For every buffer and every two valid references
`a` and `b` (they may address the same bit), `a.swap_with(b)` and `b.swap_with(a)` produce the
same buffer, and applying `a.swap_with(b)` twice restores the original buffer. -/
theorem swap_with_symmetric_involution (buf : Buffer) (a b : bit_ref) (ha : a.valid buf)
    (hb : b.valid buf) :
    (a.swap_with buf b).1 = (b.swap_with buf a).1 ∧
    (a.swap_with (a.swap_with buf b).1 b).1 = buf := by
  have ha1 : a.valid (a.swap_with buf b).1 :=
    valid_of_length_eq buf _ a (length_swap_with buf a b) ha
  have hb1 : b.valid (a.swap_with buf b).1 :=
    valid_of_length_eq buf _ b (length_swap_with buf a b) hb
  constructor
  · apply buffer_ext_read
    · rw [length_swap_with, length_swap_with]
    · intro q
      rw [read_swap_with buf a b q ha hb, read_swap_with buf b a q hb ha]
      by_cases hqa : q = a
      · by_cases hqb : q = b
        · rw [if_pos hqa, if_pos hqb, ← hqa, ← hqb]
        · rw [if_pos hqa, if_neg hqb, if_pos hqa]
      · by_cases hqb : q = b
        · rw [if_neg hqa, if_pos hqb, if_pos hqb]
        · rw [if_neg hqa, if_neg hqb, if_neg hqb, if_neg hqa]
  · apply buffer_ext_read
    · rw [length_swap_with, length_swap_with]
    · intro q
      rw [read_swap_with _ a b q ha1 hb1, read_swap_with buf a b b ha hb,
        read_swap_with buf a b a ha hb, read_swap_with buf a b q ha hb, if_pos rfl, if_pos rfl]
      by_cases hqa : q = a
      · rw [if_pos hqa, hqa]
        by_cases hba : b = a
        · rw [if_pos hba, hba]
        · rw [if_neg hba]
      · by_cases hqb : q = b
        · rw [if_neg hqa, if_pos hqb, hqb]
        · rw [if_neg hqa, if_neg hqb, if_neg hqa, if_neg hqb]

theorem swap_with_symmetric_involution_witness :
    (bit_ref.mk 0 0).valid [1, 0] ∧ (bit_ref.mk 1 7).valid [1, 0] ∧
    (((bit_ref.mk 0 0).swap_with [1, 0] (bit_ref.mk 1 7)).1 =
        ((bit_ref.mk 1 7).swap_with [1, 0] (bit_ref.mk 0 0)).1 ∧
      ((bit_ref.mk 0 0).swap_with
          ((bit_ref.mk 0 0).swap_with [1, 0] (bit_ref.mk 1 7)).1 (bit_ref.mk 1 7)).1 = [1, 0]) :=
  ⟨by decide, by decide,
    swap_with_symmetric_involution [1, 0] (bit_ref.mk 0 0) (bit_ref.mk 1 7)
      (by decide) (by decide)⟩

end Stim
